import Mathlib

/-!
Verification development for the js-decompiler pipeline.

Shallow embedding of the core pure logic of the repository:
* `src/utils/rolling_window_summarizer.js` (token estimation, sentence
  chunking with overlap, bounded recursive map-reduce summarization),
* `src/utils/helpers.js` (`sanitizeFilename`),
* `src/deconstruct_pipeline.js` (tree-sitter chunk extraction
  `processNode`, base-code filler `processBaseCode`, dependency graph
  `generateDependencyGraph`, retrying LLM invocation `invokeWithRetry`,
  and the category-based analysis orchestrator `runLLMAnalysis`).

Texts are modelled as `List Char` so that every definition is
executable and kernel-evaluable.  The language-model backend is
modelled as an explicit oracle function; a call that may fail returns
`Except`.
-/

/-- Whitespace characters, modelling the ASCII fragment of JavaScript
regex class s and of `String.prototype.trim`. -/
def isWsJS (c : Char) : Bool :=
  c == ' ' || c == '\t' || c == '\n' || c == '\r' || c == '\x0b' || c == '\x0c'

/-- Sentence-ending punctuation from the chunker regex, the class [.!?]. -/
def isSentEndJS (c : Char) : Bool :=
  c == '.' || c == '!' || c == '?'

/-- Does the accumulated sentence end in sentence punctuation?  Models the
lookbehind in the split regex of `createChunksWithOverlap`. -/
def endsSentPunct (cur : List Char) : Bool :=
  match cur.getLast? with
  | some c => isSentEndJS c
  | none => false

/-- State machine for the JS split on the regex lookbehind-punct + ws-run:
`skipping` is true while consuming a separator whitespace run.  Models
`text.split` with that regex in `createChunksWithOverlap`
(`src/utils/rolling_window_summarizer.js` line 50). -/
def splitSentGo (skipping : Bool) (cur : List Char) : List Char → List (List Char)
  | [] => [cur]
  | c :: cs =>
    if skipping then
      if isWsJS c then splitSentGo true cur cs
      else splitSentGo false [c] cs
    else if endsSentPunct cur && isWsJS c then
      cur :: splitSentGo true [] cs
    else
      splitSentGo false (cur ++ [c]) cs

/-- Split text into sentence-like pieces, as in the JS `text.split(...)`. -/
def splitSentences (text : List Char) : List (List Char) :=
  splitSentGo false [] text

/-- Models `estimateTokenCount` from `rolling_window_summarizer.js`:
`Math.ceil(text.length / 4)`. -/
def estimateTokenCount (text : List Char) : Nat :=
  (text.length + 3) / 4

/-- One step of the sentence fold inside `createChunksWithOverlap`:
the state is (finished chunks, current chunk). -/
def chunkStep (chunkSize overlapSizeChars : Nat)
    (st : List (List Char) × List Char) (sentence : List Char) :
    List (List Char) × List Char :=
  let chunks := st.1
  let currentChunk := st.2
  let (chunks, currentChunk) :=
    if chunkSize < estimateTokenCount (currentChunk ++ sentence) then
      (if currentChunk = [] then chunks else chunks ++ [currentChunk],
       if 0 < overlapSizeChars ∧ overlapSizeChars < currentChunk.length then
         currentChunk.drop (currentChunk.length - overlapSizeChars)
       else [])
    else (chunks, currentChunk)
  (chunks, currentChunk ++ (if currentChunk = [] then [] else [' ']) ++ sentence)

/-- Models `createChunksWithOverlap(text, chunkSize, overlapSize)`:
split on sentence-like boundaries and accumulate sentences into chunks,
seeding a fresh chunk with the trailing `overlapSize * 4` characters of
the previous one. -/
def createChunksWithOverlap (text : List Char) (chunkSize overlapSize : Nat) :
    List (List Char) :=
  let overlapSizeChars := overlapSize * 4
  let sentences := splitSentences text
  let st := sentences.foldl (chunkStep chunkSize overlapSizeChars) ([], [])
  if st.2 = [] then st.1 else st.1 ++ [st.2]

/-- Summarizer configuration record, modelling `DEFAULT_CONFIG` shape. -/
structure SummarizerConfig where
  chunkSize : Nat
  overlapSize : Nat
  recursionLimit : Nat
  contextLimitThreshold : Nat
deriving DecidableEq

/-- The defaults of `rolling_window_summarizer.js`. -/
def DEFAULT_CONFIG : SummarizerConfig :=
  ⟨3500, 100, 3, 3800⟩

/-- A backend oracle: given (system prompt, user text), either a reply
or an error message.  Models one `llmClient` invocation. -/
abbrev LLMOracle := List Char → List Char → Except (List Char) (List Char)

/-- The prefix the code uses to recognise a failed chunk summary:
`summary.startsWith('Error summarizing:')`. -/
def errStartMark : List Char := ("Error summarizing:").data

/-- Models `summarizeChunk`: invoke the backend; on error return the
string `Error summarizing: msg` instead of failing. -/
def summarizeChunk (llm : LLMOracle) (prompt text : List Char) : List Char :=
  match llm prompt text with
  | Except.ok r => r
  | Except.error m => ("Error summarizing: ").data ++ m

/-- The intermediate map prompt of `recursiveReduce` and `summarizeText`. -/
def intermediatePromptText : List Char :=
  ("Summarize the key points of this text segment:").data

deriving instance DecidableEq for Except

/-- Result of a summarization run: the value or raised error, the number
of levels of backend calls issued, and the total backend call count. -/
structure RROut where
  result : Except (List Char) (List Char)
  levels : Nat
  calls : Nat
deriving DecidableEq

/-- Models `recursiveReduce(textToReduce, llmClient, config, finalPrompt,
currentDepth)`.  Base case when the text fits the context limit; lossy
truncation once `currentDepth >= config.recursionLimit`; otherwise
re-chunk, summarize every chunk with the intermediate prompt, drop the
chunk summaries that start with `Error summarizing:`, raise when none
survive, and recurse on the joined survivors at depth + 1. -/
def recursiveReduce (llm : LLMOracle) (cfg : SummarizerConfig)
    (finalPrompt : List Char) (text : List Char) (depth : Nat) : RROut :=
  if _h1 : estimateTokenCount text ≤ cfg.contextLimitThreshold then
    ⟨Except.ok (summarizeChunk llm finalPrompt text), 1, 1⟩
  else if _h2 : cfg.recursionLimit ≤ depth then
    ⟨Except.ok (summarizeChunk llm finalPrompt
        (text.take (cfg.contextLimitThreshold * 4))), 1, 1⟩
  else
    let chunks := createChunksWithOverlap text cfg.chunkSize cfg.overlapSize
    let survivors :=
      (chunks.map fun c => summarizeChunk llm intermediatePromptText c).filter
        fun s => ! List.isPrefixOf errStartMark s
    if survivors = [] then
      ⟨Except.error (("All chunk summarizations failed.").data), 1, chunks.length⟩
    else
      let rest := recursiveReduce llm cfg finalPrompt
        (List.intercalate (("\n\n").data) survivors) (depth + 1)
      ⟨rest.result, rest.levels + 1, rest.calls + chunks.length⟩
termination_by cfg.recursionLimit - depth
decreasing_by omega

/-- The direct-summarization system prompt of `summarizeText`. -/
def directPromptText : List Char :=
  ("Summarize the following text concisely, preserving key information:").data

/-- The reduce prompt of `summarizeText`. -/
def finalReducePromptText : List Char :=
  ("Synthesize the following summaries into a single, coherent summary:").data

/-- Models `summarizeText(text, llmClient, config)`: reject empty or
whitespace-only input before any backend call; summarize short text in
one call; otherwise run the chunked map step and reduce the surviving
chunk summaries through `recursiveReduce` from depth 0. -/
def summarizeText (llm : LLMOracle) (text : List Char)
    (cfg : SummarizerConfig) : RROut :=
  if text.all isWsJS then
    ⟨Except.error (("Input text cannot be empty").data), 0, 0⟩
  else if estimateTokenCount text ≤ cfg.contextLimitThreshold then
    ⟨Except.ok (summarizeChunk llm directPromptText text), 1, 1⟩
  else
    let chunks := createChunksWithOverlap text cfg.chunkSize cfg.overlapSize
    let survivors :=
      (chunks.map fun c => summarizeChunk llm intermediatePromptText c).filter
        fun s => ! List.isPrefixOf errStartMark s
    if survivors = [] then
      ⟨Except.error (("All chunk summarizations failed.").data), 1, chunks.length⟩
    else
      let rest := recursiveReduce llm cfg finalReducePromptText
        (List.intercalate (("\n\n").data) survivors) 0
      ⟨rest.result, rest.levels + 1, rest.calls + chunks.length⟩

/-- Word characters of the sanitizer regex class [a-zA-Z0-9_]. -/
def isWordChar (c : Char) : Bool :=
  (97 ≤ c.toNat && c.toNat ≤ 122) || (65 ≤ c.toNat && c.toNat ≤ 90) ||
  (48 ≤ c.toNat && c.toNat ≤ 57) || c == '_'

/-- Drop the leading and the trailing run of underscores, modelling
`.replace(/^_+|_+$/g, '')`. -/
def stripEdgeUnderscores (l : List Char) : List Char :=
  ((l.dropWhile fun c => c == '_').reverse.dropWhile fun c => c == '_').reverse

/-- Models `sanitizeFilename` from `src/utils/helpers.js`: replace every
character outside [a-zA-Z0-9_] with an underscore, strip the leading and
trailing underscore runs, and fall back to `unnamed` when nothing is
left. -/
def sanitizeFilename (name : List Char) : List Char :=
  let replaced := name.map fun c => if isWordChar c then c else '_'
  let stripped := stripEdgeUnderscores replaced
  if stripped = [] then ("unnamed").data else stripped

/-- A tree-sitter syntax node: raw node type tag, node text (used for
identifiers), line positions (`startPosition.row`, `endPosition.row`),
byte positions (`startIndex`, `endIndex`) and ordered children. -/
inductive TSNode : Type where
  | mk (ntype : List Char) (text : List Char) (startRow endRow : Nat)
      (startIdx endIdx : Nat) (children : List TSNode)

/-- Raw node type tag of a node. -/
def TSNode.ntype : TSNode → List Char
  | .mk t _ _ _ _ _ _ => t

/-- Text of a node. -/
def TSNode.text : TSNode → List Char
  | .mk _ x _ _ _ _ _ => x

/-- Start row (0-based) of a node. -/
def TSNode.startRow : TSNode → Nat
  | .mk _ _ r _ _ _ _ => r

/-- End row (0-based) of a node. -/
def TSNode.endRow : TSNode → Nat
  | .mk _ _ _ r _ _ _ => r

/-- Children of a node. -/
def TSNode.children : TSNode → List TSNode
  | .mk _ _ _ _ _ _ cs => cs

/-- The `nodeTypes` table of `runTreeSitter`, mapping tree-sitter node
kinds to chunk types; unmapped kinds go to `other`. -/
def nodeTypeOf (t : List Char) : List Char :=
  if t = ("function_declaration").data then ("function").data
  else if t = ("method_definition").data then ("method").data
  else if t = ("arrow_function").data then ("arrow_function").data
  else if t = ("class_declaration").data then ("class").data
  else if t = ("variable_declaration").data then ("variable").data
  else if t = ("lexical_declaration").data then ("constant").data
  else if t = ("export_statement").data then ("export").data
  else if t = ("import_statement").data then ("import").data
  else ("other").data

/-- An emitted source chunk (a Unit): the record pushed onto `chunks`
by `processNode`. -/
structure Chunk where
  name : List Char
  ctype : List Char
  code : List Char
  startLine : Nat
  endLine : Nat
  parent : List Char
deriving DecidableEq

/-- Models `extractCode`: `sourceCode.slice(node.startIndex, node.endIndex)`. -/
def extractCode (source : List Char) (n : TSNode) : List Char :=
  match n with
  | .mk _ _ _ _ si ei _ => (source.drop si).take (ei - si)

/-- Default chunk name when a matched node has no name:
`chunk_` followed by the number of chunks already emitted. -/
def chunkDefaultName (idx : Nat) : List Char :=
  ("chunk_").data ++ (Nat.repr idx).data

/-- The name computed by `processNode` for a node, given the parent name.
Mirrors the two name-assignment blocks of `processNode`: first the
identifier-child lookup for function/method/class declarations, then the
overrides keyed on the mapped chunk type. -/
def processNodeName (n : TSNode) (parentName : List Char) : List Char :=
  match n with
  | .mk ntype _ _ _ _ _ children =>
    let t := nodeTypeOf ntype
    let name0 : List Char :=
      if children.length > 0 ∧
          (ntype = ("function_declaration").data ∨
           ntype = ("method_definition").data ∨
           ntype = ("class_declaration").data) then
        match children.find? fun c => decide (c.ntype = ("identifier").data) with
        | some idNode => idNode.text
        | none => []
      else []
    if t = ("variable").data ∨ t = ("constant").data then
      let parts :=
        ((children.filter fun c =>
            decide (c.ntype = ("variable_declarator").data)).filterMap fun c =>
          (c.children.find? fun d =>
            decide (d.ntype = ("identifier").data)).map TSNode.text).filter
          fun s => decide (s ≠ [])
      if parts = [] then ("anonymous").data
      else List.intercalate (("_").data) parts
    else if t = ("export").data ∨ t = ("import").data then
      t ++ ("_").data ++
        (match children.get? 1 with
         | some c => c.ntype
         | none => ("default").data)
    else if t = ("arrow_function").data then
      if parentName = [] then ("anonymous_arrow").data
      else parentName ++ ("_arrow").data
    else name0

mutual

/-- Models `processNode(node, depth, parentName)` of `runTreeSitter`,
rendered as a pure function: it returns the list of chunks this subtree
emits, where `idx` is the number of chunks emitted before this node
(the value of `chunks.length` when the node is visited, used for the
`chunk_N` default name).  A matched node emits its own chunk first and
then the chunks of its children, which see `name || parentName` as their
parent. -/
def processNode (source : List Char) : TSNode → List Char → Nat → List Chunk
  | n@(.mk ntype _ sr er _ _ children), parentName, idx =>
    let t := nodeTypeOf ntype
    let name := processNodeName n parentName
    let own : List Chunk :=
      if t = ("other").data then []
      else [⟨(if name = [] then chunkDefaultName idx else name), t,
             extractCode source n, sr + 1, er + 1, parentName⟩]
    own ++ processChildren source children
      (if name = [] then parentName else name) (idx + own.length)

/-- Left-to-right traversal of a child list, threading the emitted-chunk
count, modelling `node.children.forEach(...)`. -/
def processChildren (source : List Char) :
    List TSNode → List Char → Nat → List Chunk
  | [], _, _ => []
  | c :: cs, p, idx =>
    let l := processNode source c p idx
    l ++ processChildren source cs p (idx + l.length)

end

/-- Stable insertion of a line range into a list sorted by start line,
placing equal starts after existing ones.  Together with
`sortRangesByStart` this models `usedRanges.sort((a, b) => a[0] - b[0])`. -/
def insertRangeByStart (p : Nat × Nat) : List (Nat × Nat) → List (Nat × Nat)
  | [] => [p]
  | q :: qs => if p.1 < q.1 then p :: q :: qs else q :: insertRangeByStart p qs

/-- Stable sort of line ranges by start line. -/
def sortRangesByStart (l : List (Nat × Nat)) : List (Nat × Nat) :=
  l.foldr insertRangeByStart []

/-- The gap-collection loop of `processBaseCode`: walk the sorted
`[startLine, endLine]` pairs with a `lastEnd` cursor, collecting the
0-based indices of the lines of each uncovered gap
(`sourceCode.split('n').slice(lastEnd, start - 1)`), and finally the
trailing tail `slice(lastEnd)`. -/
def collectGapsAux (numLines : Nat) : List (Nat × Nat) → Nat → List Nat
  | [], lastEnd =>
    if lastEnd < numLines then List.range' lastEnd (numLines - lastEnd) else []
  | (s, e) :: rest, lastEnd =>
    (if lastEnd < s - 1 then List.range' lastEnd (s - 1 - lastEnd) else []) ++
      collectGapsAux numLines rest e

/-- The 0-based indices of the source lines that `processBaseCode`
collects into the base filler code, for the given chunk line ranges. -/
def collectedBaseIdx (ranges : List (Nat × Nat)) (numLines : Nat) : List Nat :=
  collectGapsAux numLines (sortRangesByStart ranges) 0

/-- The lines of the synthesized base code, in collection order. -/
def baseLinesOf (lines : List (List Char)) (ranges : List (Nat × Nat)) :
    List (List Char) :=
  (collectedBaseIdx ranges lines.length).filterMap lines.get?

/-- Whether `processBaseCode` emits a base chunk: models the guard
`if (baseCode.trim())`, which holds exactly when some collected line
contains a non-whitespace character (the joining newlines are
whitespace and cannot make the trim non-empty). -/
def baseEmitted (lines : List (List Char)) (ranges : List (Nat × Nat)) : Bool :=
  (baseLinesOf lines ranges).any fun l => l.any fun c => ! isWsJS c

/-- A 0-based line index is covered by one of the emitted chunk ranges
(`startLine`/`endLine` are 1-based, as in `processNode`). -/
def lineCovered (ranges : List (Nat × Nat)) (i : Nat) : Prop :=
  ∃ r ∈ ranges, r.1 - 1 ≤ i ∧ i ≤ r.2 - 1

mutual

instance decidableLineCovered (ranges : List (Nat × Nat)) (i : Nat) :
    Decidable (lineCovered ranges i) :=
  inferInstanceAs (Decidable (∃ r ∈ ranges, r.1 - 1 ≤ i ∧ i ≤ r.2 - 1))

/-- Identifier texts occurring in a syntax tree, in traversal order.
Models `findIdentifiers` of `generateDependencyGraph`. -/
def identifiersIn : TSNode → List (List Char)
  | .mk t txt _ _ _ _ children =>
    (if t = ("identifier").data then [txt] else []) ++ identifiersInList children

/-- Identifier texts of a forest, left to right. -/
def identifiersInList : List TSNode → List (List Char)
  | [] => []
  | n :: ns => identifiersIn n ++ identifiersInList ns

end

/-- Models `generateDependencyGraph`: the input is the walked list of
unit files as (basename, parsed tree) pairs; every file contributes a
node, and every identifier in a file whose text equals some known file
basename contributes an edge (file name, identifier). -/
def generateDependencyGraph (files : List (List Char × TSNode)) :
    List (List Char) × List (List Char × List Char) :=
  (files.map Prod.fst,
   (files.map fun f =>
      (identifiersIn f.2).filterMap fun id =>
        if files.any (fun g => decide (g.1 = id)) then some (f.1, id)
        else none).flatten)

/-- Outcome of `invokeWithRetry`: the returned or thrown value (`none`
models the `undefined` fall-through when the loop never runs), the
number of attempts made, and the list of inter-attempt delays in
milliseconds, in order. -/
structure RetryOut where
  result : Option (Except (List Char) (List Char))
  attemptsMade : Nat
  delaysMs : List Nat
deriving DecidableEq

/-- The retry loop of `invokeWithRetry(prompt, categoryName,
maxRetries)`: the gateway oracle is indexed by the 1-based attempt
number; a successful attempt returns; a failed final attempt rethrows;
otherwise wait `Math.pow(2, attempt) * 1000` milliseconds and retry. -/
def invokeWithRetryAux (gw : Nat → Except (List Char) (List Char))
    (maxRetries : Nat) (attempt : Nat) : RetryOut :=
  if _hstop : maxRetries < attempt then ⟨none, 0, []⟩
  else
    match gw attempt with
    | Except.ok r => ⟨some (Except.ok r), 1, []⟩
    | Except.error e =>
      if _hlast : attempt = maxRetries then ⟨some (Except.error e), 1, []⟩
      else
        let rest := invokeWithRetryAux gw maxRetries (attempt + 1)
        ⟨rest.result, rest.attemptsMade + 1, 2 ^ attempt * 1000 :: rest.delaysMs⟩
termination_by maxRetries - attempt
decreasing_by omega

/-- Models `invokeWithRetry` with the loop started at attempt 1. -/
def invokeWithRetry (gw : Nat → Except (List Char) (List Char))
    (maxRetries : Nat) : RetryOut :=
  invokeWithRetryAux gw maxRetries 1

/-- An analysis category as consumed by the orchestrator: its name and
its built prompt (prompt construction from unit samples is outside this
model). -/
structure AnalysisCat where
  name : List Char
  prompt : List Char

/-- A per-category analysis result: the record `{ name, content }`
collected into `analyses` by `runLLMAnalysis`. -/
structure AnalysisRes where
  name : List Char
  content : List Char
deriving DecidableEq

/-- One result block of the Final Summary prompt:
the mapped template fragment for one previous analysis. -/
def resultBlock (a : AnalysisRes) : List Char :=
  ("\n### ").data ++ a.name ++ ("\n").data ++ a.content

/-- The result blocks of the Final Summary prompt, one per previous
analysis, in order. -/
def resultBlocks (prev : List AnalysisRes) : List (List Char) :=
  prev.map resultBlock

/-- Text of the Final Summary prompt template before the result blocks. -/
def finalSummaryHeader : List Char :=
  ("\n# Final Summary Request\n\nBased on the previous analyses, please provide a concise final summary of the JavaScript codebase.\n\n## Previous Analyses\n").data

/-- Text of the Final Summary prompt template after the result blocks. -/
def finalSummaryFooter : List Char :=
  ("\n\n## Summary Request\nPlease provide a final executive summary that combines the insights from all previous analyses:\n\n1. What is this code's overall purpose and functionality?\n2. What are the key technical highlights and architectural choices?\n3. What frameworks, patterns, or programming paradigms are being used?\n4. What would be the main considerations when working with or modifying this code?\n\nKeep your summary concise but comprehensive, focusing on the most important takeaways about this codebase.").data

/-- The synthesis prompt of the `Final Summary` category: the template
applied to the list of completed previous analyses, with one result
block per analysis joined by newlines. -/
def finalSummaryPromptOf (prev : List AnalysisRes) : List Char :=
  finalSummaryHeader ++ List.intercalate (("\n").data) (resultBlocks prev) ++
    finalSummaryFooter

/-- The category names of `analysisCategories` in `runLLMAnalysis`;
the last one is the synthesis category. -/
def analysisCategoryNames : List (List Char) :=
  [("Structure Overview").data, ("Core Functionality").data,
   ("Data Structures").data, ("Module System").data, ("Final Summary").data]

/-- Output of the orchestrator model: the non-synthesis analyses in
order, the synthesis text, and the ordered trace of category names for
which a gateway call was issued. -/
structure OrchOut where
  analyses : List AnalysisRes
  finalSummary : List Char
  trace : List (List Char)
deriving DecidableEq

/-- Models the category orchestration of `runLLMAnalysis`: all
categories except the last are dispatched (concurrently for Vertex,
staggered for Ollama — either way their results are all awaited), and
only then is the Final Summary prompt built from the completed results
and sent.  The oracle maps (category name, prompt) to the content that
`invokeWithRetry` returns for it. -/
def runLLMAnalysisModel (oracle : List Char → List Char → List Char)
    (cats : List AnalysisCat) : OrchOut :=
  let initialCategories := cats.dropLast
  let analyses := initialCategories.map fun c => ⟨c.name, oracle c.name c.prompt⟩
  let finalSummaryPrompt := finalSummaryPromptOf analyses
  let finalSummary := oracle (("Final Summary").data) finalSummaryPrompt
  ⟨analyses, finalSummary,
   initialCategories.map AnalysisCat.name ++ [("Final Summary").data]⟩

theorem head?_dropWhile_ne {p : α → Bool} {l : List α} {a : α}
    (h : (l.dropWhile p).head? = some a) : p a = false := by
  have hh := List.head?_dropWhile_not p l
  rw [h] at hh
  exact hh

theorem dropWhile_eq_self_of_head {p : α → Bool} {l : List α}
    (h : ∀ a, l.head? = some a → p a = false) : l.dropWhile p = l := by
  cases l with
  | nil => rfl
  | cons x xs => simp [List.dropWhile_cons, h x rfl]

theorem getLast?_dropWhile_of_ne_nil {p : α → Bool} {l : List α}
    (h : l.dropWhile p ≠ []) : (l.dropWhile p).getLast? = l.getLast? := by
  obtain ⟨t, ht⟩ := List.dropWhile_suffix (l := l) p
  conv_rhs => rw [← ht]
  rw [List.getLast?_append]
  cases hgl : (l.dropWhile p).getLast? with
  | none => exact absurd (List.getLast?_eq_none_iff.mp hgl) h
  | some b => rfl

/-- C10: for every input text that is empty or consists only of
whitespace, `summarizeText` raises `Input text cannot be empty` before
making any backend invocation: its call count is 0. -/
theorem C10_empty_input (llm : LLMOracle) (cfg : SummarizerConfig)
    (text : List Char) (h : text.all isWsJS = true) :
    (summarizeText llm text cfg).result
      = Except.error (("Input text cannot be empty").data)
    ∧ (summarizeText llm text cfg).calls = 0 := by
  simp [summarizeText, h]

/-- Witness for C10 at the whitespace-only text of two spaces and a
newline, under the default configuration. -/
theorem C10_witness :
    ((("  \n").data.all isWsJS = true)
    ∧ ((summarizeText (fun _ _ => Except.ok []) (("  \n").data)
          DEFAULT_CONFIG).result
        = Except.error (("Input text cannot be empty").data)
      ∧ (summarizeText (fun _ _ => Except.ok []) (("  \n").data)
          DEFAULT_CONFIG).calls = 0)) :=
  ⟨by decide, C10_empty_input (fun _ _ => Except.ok []) DEFAULT_CONFIG
    ((("  \n").data)) (by decide)⟩

/-- C6 counterexample: `sanitizeFilename` does not collapse repeated
interior underscores: the name `a--b` sanitizes to `a__b`, not to the
collapsed `a_b` the claim requires. -/
theorem C6_counterexample :
    sanitizeFilename (("a--b").data) = ("a__b").data
    ∧ ("a__b").data ≠ ("a_b").data := by decide

/-- C6 (amended): `sanitizeFilename` replaces every character that is
not alphanumeric or underscore with an underscore, strips the leading
and trailing underscore runs (but does not collapse repeated interior
underscores), and returns `unnamed` when nothing remains.  Stated as:
the result is nonempty, never starts or ends with an underscore, and
consists of word characters only; a nonempty all-word name with no edge
underscore is returned unchanged; and a name whose characters are all
non-word or underscore collapses to `unnamed`. -/
theorem map_eq_self_of_mem {α : Type} {f : α → α} {l : List α}
    (h : ∀ c ∈ l, f c = c) : l.map f = l := by
  induction l with
  | nil => rfl
  | cons x xs ih =>
    simp only [List.map_cons, h x (by simp), List.cons.injEq, true_and]
    exact ih fun c hc => h c (by simp [hc])

/-- C6 (amended): `sanitizeFilename` replaces every character that is
not alphanumeric or underscore with an underscore, strips the leading
and trailing underscore runs (but does not collapse repeated interior
underscores), and returns `unnamed` when nothing remains.  Stated as:
the result is nonempty, never starts or ends with an underscore, and
consists of word characters only; a nonempty all-word name with no edge
underscore is returned unchanged; and a name whose characters are all
non-word or underscore collapses to `unnamed`. -/
theorem C6_amended_sanitize (name : List Char) :
    sanitizeFilename name ≠ []
    ∧ (sanitizeFilename name).head? ≠ some '_'
    ∧ (sanitizeFilename name).getLast? ≠ some '_'
    ∧ (∀ c ∈ sanitizeFilename name, isWordChar c = true)
    ∧ ((∀ c ∈ name, isWordChar c = true) → name ≠ [] →
        name.head? ≠ some '_' → name.getLast? ≠ some '_' →
        sanitizeFilename name = name)
    ∧ ((∀ c ∈ name, isWordChar c = false ∨ c = '_') →
        sanitizeFilename name = ("unnamed").data) := by
  unfold sanitizeFilename
  by_cases hs : stripEdgeUnderscores
      (name.map fun c => if isWordChar c then c else '_') = []
  · rw [if_pos hs]
    refine ⟨by decide, by decide, by decide, by decide, ?_, fun _ => rfl⟩
    intro hw hne hh _
    exfalso
    unfold stripEdgeUnderscores at hs
    rw [map_eq_self_of_mem fun c hc => if_pos (hw c hc)] at hs
    have h1 : List.dropWhile (fun c => c == '_') name = name :=
      dropWhile_eq_self_of_head fun a ha => by
        have hne' : a ≠ '_' := fun hc => hh (hc ▸ ha)
        simpa using hne'
    rw [h1, List.reverse_eq_nil_iff, List.dropWhile_eq_nil_iff] at hs
    rcases List.exists_cons_of_ne_nil hne with ⟨x, xs, rfl⟩
    have hx := hs x (by simp)
    simp only [beq_iff_eq] at hx
    exact hh (by simp [hx])
  · rw [if_neg hs]
    have hBne : List.dropWhile (fun c => c == '_')
        (List.dropWhile (fun c => c == '_')
          (name.map fun c => if isWordChar c then c else '_')).reverse ≠ [] := by
      intro hnil
      apply hs
      unfold stripEdgeUnderscores
      rw [hnil]
      rfl
    have hmemRepl : ∀ c ∈ stripEdgeUnderscores
        (name.map fun c => if isWordChar c then c else '_'),
        isWordChar c = true := by
      intro c hc
      unfold stripEdgeUnderscores at hc
      rw [List.mem_reverse] at hc
      have hc2 := (List.dropWhile_sublist _).mem hc
      rw [List.mem_reverse] at hc2
      have hc3 := (List.dropWhile_sublist _).mem hc2
      rcases List.mem_map.mp hc3 with ⟨a, -, rfl⟩
      by_cases hw : isWordChar a = true
      · rw [if_pos hw]; exact hw
      · rw [if_neg hw]; decide
    refine ⟨hs, ?_, ?_, hmemRepl, ?_, ?_⟩
    · unfold stripEdgeUnderscores
      intro hhd
      rw [List.head?_reverse] at hhd
      rw [getLast?_dropWhile_of_ne_nil hBne] at hhd
      rw [List.getLast?_reverse] at hhd
      have := head?_dropWhile_ne hhd
      simp at this
    · unfold stripEdgeUnderscores
      intro hlast
      rw [List.getLast?_reverse] at hlast
      have := head?_dropWhile_ne hlast
      simp at this
    · intro hw hne hh hl
      have hrepl : (name.map fun c => if isWordChar c then c else '_') = name :=
        map_eq_self_of_mem fun c hc => if_pos (hw c hc)
      have h1 : List.dropWhile (fun c => c == '_') name = name :=
        dropWhile_eq_self_of_head fun a ha => by
          have hne' : a ≠ '_' := fun hc => hh (hc ▸ ha)
          simpa using hne'
      have h2 : List.dropWhile (fun c => c == '_') name.reverse = name.reverse :=
        dropWhile_eq_self_of_head fun a ha => by
          rw [List.head?_reverse] at ha
          have hne' : a ≠ '_' := fun hc => hl (hc ▸ ha)
          simpa using hne'
      unfold stripEdgeUnderscores
      rw [hrepl, h1, h2, List.reverse_reverse]
    · intro hnw
      exfalso
      apply hs
      unfold stripEdgeUnderscores
      have hall : ∀ c ∈ (name.map fun c => if isWordChar c then c else '_'),
          (c == '_') = true := by
        intro c hc
        rcases List.mem_map.mp hc with ⟨a, ha, rfl⟩
        rcases hnw a ha with hf | hu
        · simp [hf]
        · simp [hu]
      rw [List.dropWhile_eq_nil_iff.mpr hall]
      rfl

/-- Witness for C6 (amended): a clean all-word name is returned
unchanged, and an all-punctuation name falls back to `unnamed`. -/
theorem C6_witness :
    sanitizeFilename (("abc").data) = ("abc").data
    ∧ sanitizeFilename (("--").data) = ("unnamed").data :=
  ⟨(C6_amended_sanitize (("abc").data)).2.2.2.2.1
      (by decide) (by decide) (by decide) (by decide),
   (C6_amended_sanitize (("--").data)).2.2.2.2.2 (by decide)⟩

/-- C5 counterexample: `createChunksWithOverlap` has no hard
character-slicing fallback, so a text that contains no sentence-like
boundary comes out as a single segment whose estimated token count (5)
exceeds `chunkSizeTokens` (1), refuting the claimed bound. -/
theorem C5_counterexample :
    createChunksWithOverlap (List.replicate 20 'a') 1 0
      = [List.replicate 20 'a']
    ∧ 1 < estimateTokenCount (List.replicate 20 'a') := by decide

/-- C5 (amended): `createChunksWithOverlap` splits only on
sentence-like boundaries; there is no hard character-slicing fallback,
so a produced segment's estimated token count can exceed
`chunkSizeTokens`.  In particular a nonempty text without any sentence
boundary is returned as one single segment, whatever the budget. -/
theorem C5_amended_no_slicing (text : List Char) (chunkSize overlapSize : Nat)
    (hb : splitSentences text = [text]) (hne : text ≠ []) :
    createChunksWithOverlap text chunkSize overlapSize = [text] := by
  unfold createChunksWithOverlap
  rw [hb]
  simp only [List.foldl_cons, List.foldl_nil]
  by_cases h : chunkSize < estimateTokenCount ([] ++ text)
  · simp [chunkStep, h, hne]
  · simp [chunkStep, h, hne]

/-- Witness for C5 (amended) on the three-character text `abc`. -/
theorem C5_witness :
    (splitSentences (("abc").data) = [("abc").data]
      ∧ (("abc").data : List Char) ≠ [])
    ∧ createChunksWithOverlap (("abc").data) 1 2 = [("abc").data] :=
  ⟨⟨by decide, by decide⟩,
   C5_amended_no_slicing (("abc").data) 1 2 (by decide) (by decide)⟩

theorem recursiveReduce_levels_le (llm : LLMOracle) (cfg : SummarizerConfig)
    (finalPrompt : List Char) :
    ∀ (n depth : Nat) (text : List Char), cfg.recursionLimit - depth ≤ n →
      (recursiveReduce llm cfg finalPrompt text depth).levels ≤ n + 1 := by
  intro n
  induction n with
  | zero =>
    intro depth text h
    rw [recursiveReduce]
    split
    · exact le_refl 1
    · rw [dif_pos (by omega)]
  | succ n ih =>
    intro depth text h
    rw [recursiveReduce]
    split
    · show (1 : Nat) ≤ n + 1 + 1
      omega
    · split
      · show (1 : Nat) ≤ n + 1 + 1
        omega
      · dsimp only
        split
        · show (1 : Nat) ≤ n + 1 + 1
          omega
        · show _ + 1 ≤ n + 1 + 1
          exact Nat.add_le_add_right (ih (depth + 1) _ (by omega)) 1

/-- C2: `recursiveReduce` terminates (it is a total function of this
development) and issues at most `recursionLimit + 1` levels of backend
calls when started at depth 0 (in general, `recursionLimit - depth + 1`
levels from depth `depth`); and whenever the recursion depth has
reached `recursionLimit` while the text is still over
`contextLimitThreshold`, the text is truncated to
`contextLimitThreshold * 4` characters and summarized directly in one
single backend call. -/
theorem C2_depth_bound_truncation (llm : LLMOracle) (cfg : SummarizerConfig)
    (finalPrompt text : List Char) (depth : Nat) :
    (recursiveReduce llm cfg finalPrompt text depth).levels
      ≤ (cfg.recursionLimit - depth) + 1
    ∧ (cfg.contextLimitThreshold < estimateTokenCount text →
        cfg.recursionLimit ≤ depth →
        recursiveReduce llm cfg finalPrompt text depth =
          ⟨Except.ok (summarizeChunk llm finalPrompt
              (text.take (cfg.contextLimitThreshold * 4))), 1, 1⟩) := by
  constructor
  · exact recursiveReduce_levels_le llm cfg finalPrompt _ depth text (le_refl _)
  · intro hbig hdepth
    rw [recursiveReduce, dif_neg (by omega), dif_pos hdepth]

/-- Witness for C2 at depth = recursionLimit = 2 with an
8-character text over a threshold of 1 token: exactly the truncating
single call, and the level bound at depth 0. -/
theorem C2_witness :
    ((1 : Nat) < estimateTokenCount (List.replicate 8 'a')
      ∧ (2 : Nat) ≤ 2
      ∧ recursiveReduce (fun _ _ => Except.ok (("S").data)) ⟨1, 0, 2, 1⟩
          (("p").data) (List.replicate 8 'a') 2 =
        ⟨Except.ok (summarizeChunk (fun _ _ => Except.ok (("S").data))
            (("p").data) ((List.replicate 8 'a').take (1 * 4))), 1, 1⟩)
    ∧ (recursiveReduce (fun _ _ => Except.ok (("S").data)) ⟨1, 0, 2, 1⟩
        (("p").data) (List.replicate 8 'a') 0).levels ≤ (2 - 0) + 1 :=
  ⟨⟨by decide, by decide,
    (C2_depth_bound_truncation (fun _ _ => Except.ok (("S").data)) ⟨1, 0, 2, 1⟩
      (("p").data) (List.replicate 8 'a') 2).2 (by decide) (by decide)⟩,
   (C2_depth_bound_truncation (fun _ _ => Except.ok (("S").data)) ⟨1, 0, 2, 1⟩
      (("p").data) (List.replicate 8 'a') 0).1⟩

/-- C8 counterexample: a chunk whose summarization errors is not always
harmless — when every chunk fails (here the input has a single chunk
and the backend always errors) the overall `summarizeText` call itself
fails with `All chunk summarizations failed.` rather than proceeding. -/
theorem C8_counterexample :
    summarizeChunk (fun _ _ => Except.error (("boom").data))
        intermediatePromptText (List.replicate 8 'a')
      = ("Error summarizing: boom").data
    ∧ (summarizeText (fun _ _ => Except.error (("boom").data))
        (List.replicate 8 'a') ⟨1, 0, 3, 1⟩).result
      = Except.error (("All chunk summarizations failed.").data) := by
  constructor
  · decide
  · decide

/-- C8 (amended): during the map step of `recursiveReduce`, every chunk
summary that starts with `Error summarizing:` is discarded from the
surviving summaries, and the call proceeds on the survivors — provided
at least one chunk summary survives; when every chunk's summarization
errors, the call raises `All chunk summarizations failed.` instead of
proceeding. -/
theorem C8_amended_discard (llm : LLMOracle) (cfg : SummarizerConfig)
    (finalPrompt text : List Char) (depth : Nat)
    (hbig : cfg.contextLimitThreshold < estimateTokenCount text)
    (hdepth : depth < cfg.recursionLimit) :
    (∀ s ∈ (createChunksWithOverlap text cfg.chunkSize cfg.overlapSize).map
        (fun c => summarizeChunk llm intermediatePromptText c),
      List.isPrefixOf errStartMark s = true →
        s ∉ ((createChunksWithOverlap text cfg.chunkSize cfg.overlapSize).map
          (fun c => summarizeChunk llm intermediatePromptText c)).filter
            (fun s => ! List.isPrefixOf errStartMark s))
    ∧ (((createChunksWithOverlap text cfg.chunkSize cfg.overlapSize).map
          (fun c => summarizeChunk llm intermediatePromptText c)).filter
            (fun s => ! List.isPrefixOf errStartMark s) ≠ [] →
        recursiveReduce llm cfg finalPrompt text depth =
          ⟨(recursiveReduce llm cfg finalPrompt
              (List.intercalate (("\n\n").data)
                (((createChunksWithOverlap text cfg.chunkSize cfg.overlapSize).map
                  (fun c => summarizeChunk llm intermediatePromptText c)).filter
                    (fun s => ! List.isPrefixOf errStartMark s))) (depth + 1)).result,
            (recursiveReduce llm cfg finalPrompt
              (List.intercalate (("\n\n").data)
                (((createChunksWithOverlap text cfg.chunkSize cfg.overlapSize).map
                  (fun c => summarizeChunk llm intermediatePromptText c)).filter
                    (fun s => ! List.isPrefixOf errStartMark s))) (depth + 1)).levels + 1,
            (recursiveReduce llm cfg finalPrompt
              (List.intercalate (("\n\n").data)
                (((createChunksWithOverlap text cfg.chunkSize cfg.overlapSize).map
                  (fun c => summarizeChunk llm intermediatePromptText c)).filter
                    (fun s => ! List.isPrefixOf errStartMark s))) (depth + 1)).calls +
              (createChunksWithOverlap text cfg.chunkSize cfg.overlapSize).length⟩)
    ∧ (((createChunksWithOverlap text cfg.chunkSize cfg.overlapSize).map
          (fun c => summarizeChunk llm intermediatePromptText c)).filter
            (fun s => ! List.isPrefixOf errStartMark s) = [] →
        (recursiveReduce llm cfg finalPrompt text depth).result =
          Except.error (("All chunk summarizations failed.").data)) := by
  refine ⟨?_, ?_, ?_⟩
  · intro s _ hpre hmem
    rcases List.mem_filter.mp hmem with ⟨-, hkeep⟩
    rw [hpre] at hkeep
    exact absurd hkeep (by decide)
  · intro hne
    rw [recursiveReduce, dif_neg (by omega), dif_neg (by omega), if_neg hne]
  · intro hnil
    rw [recursiveReduce, dif_neg (by omega), dif_neg (by omega), if_pos hnil]

/-- Witness for C8 (amended): one erroring chunk is discarded while a
surviving summary keeps the call going; with a single text chunk and a
succeeding backend the survivor list is nonempty and the reduce
recurses on it. -/
theorem C8_witness :
    ((1 : Nat) < estimateTokenCount (List.replicate 8 'a')
      ∧ (0 : Nat) < 3)
    ∧ (((createChunksWithOverlap (List.replicate 8 'a') 1 0).map
          (fun c => summarizeChunk (fun _ _ => Except.ok (("ok").data))
            intermediatePromptText c)).filter
            (fun s => ! List.isPrefixOf errStartMark s) = [] →
        (recursiveReduce (fun _ _ => Except.ok (("ok").data)) ⟨1, 0, 3, 1⟩
          (("p").data) (List.replicate 8 'a') 0).result =
          Except.error (("All chunk summarizations failed.").data)) :=
  ⟨⟨by decide, by decide⟩,
   (C8_amended_discard (fun _ _ => Except.ok (("ok").data)) ⟨1, 0, 3, 1⟩
      (("p").data) (List.replicate 8 'a') 0 (by decide) (by decide)).2.2⟩

theorem invokeWithRetryAux_all_fail (gw : Nat → Except (List Char) (List Char))
    (errs : Nat → List Char) (hgw : ∀ a, gw a = Except.error (errs a))
    (maxRetries : Nat) :
    ∀ (k attempt : Nat), 1 ≤ attempt → attempt + k = maxRetries →
      invokeWithRetryAux gw maxRetries attempt =
        ⟨some (Except.error (errs maxRetries)), k + 1,
         (List.range' attempt k).map fun a => 2 ^ a * 1000⟩ := by
  intro k
  induction k with
  | zero =>
    intro attempt h1 heq
    rw [invokeWithRetryAux, dif_neg (by omega), hgw]
    simp only []
    rw [dif_pos (by omega)]
    simp [← heq]
  | succ k ih =>
    intro attempt h1 heq
    rw [invokeWithRetryAux, dif_neg (by omega), hgw]
    simp only []
    rw [dif_neg (by omega)]
    rw [ih (attempt + 1) (by omega) (by omega)]
    rw [List.range'_succ]
    simp

/-- C4: if every attempt of `invokeWithRetry` fails, it raises the last
error after exactly `maxRetries` attempts, with the inter-attempt
delays being `2 ^ attempt * 1000` milliseconds (that is, `2 ^ attempt`
seconds) for attempts 1 to `maxRetries - 1`, a strictly increasing
sequence. -/
theorem C4_retry_exhaustion (gw : Nat → Except (List Char) (List Char))
    (errs : Nat → List Char) (maxRetries : Nat) (hmr : 1 ≤ maxRetries)
    (hgw : ∀ a, gw a = Except.error (errs a)) :
    (invokeWithRetry gw maxRetries).result
      = some (Except.error (errs maxRetries))
    ∧ (invokeWithRetry gw maxRetries).attemptsMade = maxRetries
    ∧ (invokeWithRetry gw maxRetries).delaysMs
        = (List.range' 1 (maxRetries - 1)).map (fun a => 2 ^ a * 1000)
    ∧ List.Chain' (· < ·) ((invokeWithRetry gw maxRetries).delaysMs) := by
  have h := invokeWithRetryAux_all_fail gw errs hgw maxRetries
    (maxRetries - 1) 1 (le_refl 1) (by omega)
  unfold invokeWithRetry
  rw [h]
  refine ⟨rfl, by simp; omega, rfl, ?_⟩
  have hchain : ∀ (k s : Nat),
      List.Chain' (· < ·) ((List.range' s k).map fun a => 2 ^ a * 1000) := by
    intro k
    induction k with
    | zero => intro s; simp
    | succ k ih =>
      intro s
      rw [List.range'_succ]
      rw [List.map_cons]
      rcases k with - | k
      · simp
      · rw [List.chain'_cons']
        refine ⟨?_, ih (s + 1)⟩
        intro y hy
        rw [List.range'_succ, List.map_cons] at hy
        simp only [List.head?_cons, Option.mem_def, Option.some.injEq] at hy
        subst hy
        have hpow : (2 : Nat) ^ s < 2 ^ (s + 1) :=
          Nat.pow_lt_pow_right (by omega) (by omega)
        omega
  exact hchain (maxRetries - 1) 1

/-- Witness for C4 at `maxRetries = 3` with an always-failing gateway:
three attempts, the error of attempt 3 is raised, and the delays are
2000 ms and 4000 ms. -/
theorem C4_witness :
    ((1 : Nat) ≤ 3)
    ∧ ((invokeWithRetry (fun a => Except.error ((Nat.repr a).data)) 3).result
        = some (Except.error ((Nat.repr 3).data))
      ∧ (invokeWithRetry (fun a => Except.error ((Nat.repr a).data)) 3).attemptsMade = 3
      ∧ (invokeWithRetry (fun a => Except.error ((Nat.repr a).data)) 3).delaysMs
          = (List.range' 1 (3 - 1)).map (fun a => 2 ^ a * 1000)
      ∧ List.Chain' (· < ·)
          ((invokeWithRetry (fun a => Except.error ((Nat.repr a).data)) 3).delaysMs)) :=
  ⟨by decide,
   C4_retry_exhaustion (fun a => Except.error ((Nat.repr a).data))
     (fun a => (Nat.repr a).data) 3 (by decide) (fun a => rfl)⟩

/-- C3: the synthesis category (`Final Summary`) is invoked only after
every non-synthesis category has produced a result: the ordered call
trace is exactly the non-synthesis category names followed by one final
`Final Summary` entry; the synthesis prompt is built from the completed
results and contains exactly one result block per non-synthesis
category (N blocks for N non-synthesis categories); and the program's
own category table has 4 non-synthesis categories. -/
theorem C3_synthesis_barrier (oracle : List Char → List Char → List Char)
    (cats : List AnalysisCat) :
    (runLLMAnalysisModel oracle cats).trace
      = cats.dropLast.map AnalysisCat.name ++ [("Final Summary").data]
    ∧ (runLLMAnalysisModel oracle cats).trace.getLast?
        = some (("Final Summary").data)
    ∧ (resultBlocks (runLLMAnalysisModel oracle cats).analyses).length
        = cats.dropLast.length
    ∧ (runLLMAnalysisModel oracle cats).finalSummary
        = oracle (("Final Summary").data)
            (finalSummaryPromptOf (runLLMAnalysisModel oracle cats).analyses)
    ∧ analysisCategoryNames.dropLast.length = 4 := by
  refine ⟨rfl, ?_, ?_, rfl, rfl⟩
  · simp [runLLMAnalysisModel]
  · simp [runLLMAnalysisModel, resultBlocks]

theorem mem_generateDependencyGraph_edges
    {files : List (List Char × TSNode)} {e : List Char × List Char} :
    e ∈ (generateDependencyGraph files).2 ↔
      ∃ f ∈ files, e.1 = f.1 ∧ e.2 ∈ identifiersIn f.2
        ∧ ∃ g ∈ files, g.1 = e.2 := by
  unfold generateDependencyGraph
  rw [List.mem_flatten]
  constructor
  · rintro ⟨l, hl, hel⟩
    rcases List.mem_map.mp hl with ⟨f, hf, rfl⟩
    rcases List.mem_filterMap.mp hel with ⟨id, hid, hcase⟩
    by_cases hany : files.any fun g => decide (g.1 = id)
    · rw [if_pos hany] at hcase
      rcases Option.some.inj hcase with rfl
      rcases List.any_eq_true.mp hany with ⟨g, hg, hgid⟩
      exact ⟨f, hf, rfl, hid, g, hg, of_decide_eq_true hgid⟩
    · rw [if_neg hany] at hcase
      exact absurd hcase (by simp)
  · rintro ⟨f, hf, he1, hid, g, hg, hgid⟩
    refine ⟨(identifiersIn f.2).filterMap fun id =>
      if files.any (fun g => decide (g.1 = id)) then some (f.1, id) else none,
      List.mem_map.mpr ⟨f, hf, rfl⟩, ?_⟩
    refine List.mem_filterMap.mpr ⟨e.2, hid, ?_⟩
    rw [if_pos (List.any_eq_true.mpr ⟨g, hg, decide_eq_true hgid⟩)]
    rw [← he1]

/-- C9: in every dependency graph produced by
`generateDependencyGraph`, the node list contains both endpoints of
every edge; an edge is emitted only for an identifier whose text
exactly equals a known unit-file name (and comes from scanning the
identifiers of its source file); and self-loops are retained: a file
whose tree mentions its own name as an identifier yields the edge
(name, name). -/
theorem C9_graph_closure (files : List (List Char × TSNode)) :
    (∀ e ∈ (generateDependencyGraph files).2,
        e.1 ∈ (generateDependencyGraph files).1
        ∧ e.2 ∈ (generateDependencyGraph files).1
        ∧ ∃ f ∈ files, e.1 = f.1 ∧ e.2 ∈ identifiersIn f.2)
    ∧ (∀ (name : List Char) (tree : TSNode), (name, tree) ∈ files →
        name ∈ identifiersIn tree →
        (name, name) ∈ (generateDependencyGraph files).2) := by
  constructor
  · intro e he
    rcases mem_generateDependencyGraph_edges.mp he with
      ⟨f, hf, he1, hid, g, hg, hgid⟩
    refine ⟨?_, ?_, f, hf, he1, hid⟩
    · show e.1 ∈ files.map Prod.fst
      exact List.mem_map.mpr ⟨f, hf, he1.symm⟩
    · show e.2 ∈ files.map Prod.fst
      exact List.mem_map.mpr ⟨g, hg, hgid⟩
  · intro name tree hmem hid
    exact mem_generateDependencyGraph_edges.mpr
      ⟨(name, tree), hmem, rfl, hid, (name, tree), hmem, rfl⟩

/-- Witness for C9: a file `f` whose tree is a single identifier node
reading `f` produces the self-loop edge (f, f). -/
theorem C9_witness :
    ((("f").data, TSNode.mk (("identifier").data) (("f").data) 0 0 0 1 [])
        ∈ [((("f").data),
            TSNode.mk (("identifier").data) (("f").data) 0 0 0 1 [])]
      ∧ ("f").data ∈ identifiersIn
          (TSNode.mk (("identifier").data) (("f").data) 0 0 0 1 []))
    ∧ ((("f").data, ("f").data) ∈
        (generateDependencyGraph
          [((("f").data),
            TSNode.mk (("identifier").data) (("f").data) 0 0 0 1 [])]).2) :=
  ⟨⟨List.mem_singleton.mpr rfl, by decide⟩,
   (C9_graph_closure
       [((("f").data), TSNode.mk (("identifier").data) (("f").data) 0 0 0 1 [])]).2
     (("f").data) (TSNode.mk (("identifier").data) (("f").data) 0 0 0 1 [])
     (List.mem_singleton.mpr rfl) (by decide)⟩

theorem TSNode.ntype_mk (t x : List Char) (sr er si ei : Nat) (cs : List TSNode) :
    (TSNode.mk t x sr er si ei cs).ntype = t := rfl

theorem TSNode.children_mk (t x : List Char) (sr er si ei : Nat) (cs : List TSNode) :
    (TSNode.mk t x sr er si ei cs).children = cs := rfl

theorem TSNode.startRow_mk (t x : List Char) (sr er si ei : Nat) (cs : List TSNode) :
    (TSNode.mk t x sr er si ei cs).startRow = sr := rfl

theorem TSNode.endRow_mk (t x : List Char) (sr er si ei : Nat) (cs : List TSNode) :
    (TSNode.mk t x sr er si ei cs).endRow = er := rfl

theorem processNodeName_fnlike (t x : List Char) (sr er si ei : Nat)
    (cs : List TSNode) (parentName : List Char)
    (h : t = ("function_declaration").data ∨ t = ("method_definition").data
       ∨ t = ("class_declaration").data) :
    processNodeName (TSNode.mk t x sr er si ei cs) parentName =
      (match cs.find? fun c => decide (c.ntype = ("identifier").data) with
       | some idNode => idNode.text
       | none => []) := by
  rw [processNodeName]
  dsimp only
  rcases h with rfl | rfl | rfl
  · rw [if_neg (show ¬(nodeTypeOf (("function_declaration").data) = ("variable").data
        ∨ nodeTypeOf (("function_declaration").data) = ("constant").data) from by decide)]
    rw [if_neg (show ¬(nodeTypeOf (("function_declaration").data) = ("export").data
        ∨ nodeTypeOf (("function_declaration").data) = ("import").data) from by decide)]
    rw [if_neg (show ¬(nodeTypeOf (("function_declaration").data)
        = ("arrow_function").data) from by decide)]
    cases cs with
    | nil => rw [if_neg (by simp)]; exact rfl
    | cons c cs' => rw [if_pos ⟨by simp, by decide⟩]
  · rw [if_neg (show ¬(nodeTypeOf (("method_definition").data) = ("variable").data
        ∨ nodeTypeOf (("method_definition").data) = ("constant").data) from by decide)]
    rw [if_neg (show ¬(nodeTypeOf (("method_definition").data) = ("export").data
        ∨ nodeTypeOf (("method_definition").data) = ("import").data) from by decide)]
    rw [if_neg (show ¬(nodeTypeOf (("method_definition").data)
        = ("arrow_function").data) from by decide)]
    cases cs with
    | nil => rw [if_neg (by simp)]; exact rfl
    | cons c cs' => rw [if_pos ⟨by simp, by decide⟩]
  · rw [if_neg (show ¬(nodeTypeOf (("class_declaration").data) = ("variable").data
        ∨ nodeTypeOf (("class_declaration").data) = ("constant").data) from by decide)]
    rw [if_neg (show ¬(nodeTypeOf (("class_declaration").data) = ("export").data
        ∨ nodeTypeOf (("class_declaration").data) = ("import").data) from by decide)]
    rw [if_neg (show ¬(nodeTypeOf (("class_declaration").data)
        = ("arrow_function").data) from by decide)]
    cases cs with
    | nil => rw [if_neg (by simp)]; exact rfl
    | cons c cs' => rw [if_pos ⟨by simp, by decide⟩]

/-- C7 counterexample: a matched `function_declaration` node with no
identifier child is emitted under the default name `chunk_0` (the
`chunk_` prefix plus the running chunk count), not under the name
`anonymous` the claim requires. -/
theorem C7_counterexample :
    (processNode (("funct").data)
        (TSNode.mk (("function_declaration").data) [] 0 0 0 5 []) [] 0).map
        Chunk.name
      = [("chunk_0").data]
    ∧ ("chunk_0").data ≠ ("anonymous").data := by decide

/-- C7 (amended): for every matched function, method, or class node,
the emitted Unit's name is the text of the first identifier child of
the node; when no such identifier exists (or its text is empty) the
name is `chunk_i`, where `i` is the number of Units emitted before this
one — not `anonymous`. -/
theorem C7_amended_name (source : List Char) (n : TSNode)
    (parentName : List Char) (idx : Nat)
    (h : n.ntype = ("function_declaration").data
       ∨ n.ntype = ("method_definition").data
       ∨ n.ntype = ("class_declaration").data) :
    (processNode source n parentName idx).head? = some
      ⟨(match n.children.find? fun c => decide (c.ntype = ("identifier").data) with
        | some idNode =>
            if idNode.text = [] then chunkDefaultName idx else idNode.text
        | none => chunkDefaultName idx),
       nodeTypeOf n.ntype, extractCode source n,
       n.startRow + 1, n.endRow + 1, parentName⟩ := by
  obtain ⟨t, x, sr, er, si, ei, cs⟩ := n
  simp only [TSNode.ntype_mk] at h
  simp only [TSNode.ntype_mk, TSNode.children_mk, TSNode.startRow_mk,
    TSNode.endRow_mk]
  have hother : ¬(nodeTypeOf t = ("other").data) := by
    rcases h with rfl | rfl | rfl
    · decide
    · decide
    · decide
  rw [processNode]
  dsimp only
  rw [processNodeName_fnlike t x sr er si ei cs parentName h]
  rw [if_neg hother]
  simp only [List.singleton_append, List.head?_cons, Option.some.injEq]
  cases hfind : cs.find? fun c => decide (c.ntype = ("identifier").data) with
  | none => simp
  | some idNode =>
    by_cases hnil : idNode.text = []
    · simp [hnil]
    · simp [hnil]

/-- Witness for C7 (amended): a function declaration whose first
identifier child reads `foo` is emitted as a `function` Unit named
`foo`, spanning rows 0-2 (lines 1-3). -/
theorem C7_witness :
    ((TSNode.mk (("function_declaration").data) [] 0 2 0 5
        [TSNode.mk (("identifier").data) (("foo").data) 0 0 0 3 []]).ntype
        = ("function_declaration").data
      ∨ (TSNode.mk (("function_declaration").data) [] 0 2 0 5
        [TSNode.mk (("identifier").data) (("foo").data) 0 0 0 3 []]).ntype
        = ("method_definition").data
      ∨ (TSNode.mk (("function_declaration").data) [] 0 2 0 5
        [TSNode.mk (("identifier").data) (("foo").data) 0 0 0 3 []]).ntype
        = ("class_declaration").data)
    ∧ (processNode (("funct").data)
        (TSNode.mk (("function_declaration").data) [] 0 2 0 5
          [TSNode.mk (("identifier").data) (("foo").data) 0 0 0 3 []]) [] 0).head?
      = some ⟨("foo").data, ("function").data, ("funct").data, 1, 3, []⟩ :=
  ⟨Or.inl rfl, by
    rw [C7_amended_name (("funct").data)
      (TSNode.mk (("function_declaration").data) [] 0 2 0 5
        [TSNode.mk (("identifier").data) (("foo").data) 0 0 0 3 []]) [] 0
      (Or.inl rfl)]
    decide⟩

theorem mem_insertRangeByStart {p q : Nat × Nat} {l : List (Nat × Nat)} :
    q ∈ insertRangeByStart p l ↔ q = p ∨ q ∈ l := by
  induction l with
  | nil => simp [insertRangeByStart]
  | cons r rs ih =>
    rw [insertRangeByStart]
    split
    · simp [List.mem_cons]
    · simp only [List.mem_cons, ih]
      tauto

theorem mem_sortRangesByStart {q : Nat × Nat} {l : List (Nat × Nat)} :
    q ∈ sortRangesByStart l ↔ q ∈ l := by
  induction l with
  | nil => simp [sortRangesByStart]
  | cons r rs ih =>
    show q ∈ insertRangeByStart r (sortRangesByStart rs) ↔ _
    rw [mem_insertRangeByStart, ih]
    simp [List.mem_cons]

theorem collectGapsAux_cover (numLines : Nat) :
    ∀ (rs : List (Nat × Nat)) (lastEnd i : Nat), lastEnd ≤ i → i < numLines →
      (∀ r ∈ rs, ¬ (r.1 - 1 ≤ i ∧ i ≤ r.2 - 1)) →
      i ∈ collectGapsAux numLines rs lastEnd := by
  intro rs
  induction rs with
  | nil =>
    intro lastEnd i h1 h2 _
    rw [collectGapsAux, if_pos (by omega), List.mem_range'_1]
    omega
  | cons r rest ih =>
    intro lastEnd i h1 h2 hunc
    obtain ⟨s, e⟩ := r
    have hr : ¬ (s - 1 ≤ i ∧ i ≤ e - 1) := hunc (s, e) (List.mem_cons_self _ _)
    rw [collectGapsAux, List.mem_append]
    by_cases hlt : i < s - 1
    · left
      rw [if_pos (by omega), List.mem_range'_1]
      omega
    · right
      refine ih e i (by omega) h2 fun r' hr' => hunc r' (List.mem_cons_of_mem _ hr')

theorem collectGapsAux_disjoint (numLines : Nat) :
    ∀ (rs : List (Nat × Nat)) (lastEnd : Nat),
      rs.Pairwise (fun a b => a.2 < b.1) →
      (∀ r ∈ rs, lastEnd < r.1 ∧ 1 ≤ r.1 ∧ r.1 ≤ r.2) →
      ∀ i ∈ collectGapsAux numLines rs lastEnd,
        lastEnd ≤ i ∧ ∀ r ∈ rs, ¬ (r.1 - 1 ≤ i ∧ i ≤ r.2 - 1) := by
  intro rs
  induction rs with
  | nil =>
    intro lastEnd _ _ i hi
    rw [collectGapsAux] at hi
    refine ⟨?_, by simp⟩
    split at hi
    · rw [List.mem_range'_1] at hi
      omega
    · simp at hi
  | cons r rest ih =>
    intro lastEnd hpw hb i hi
    obtain ⟨s, e⟩ := r
    rw [collectGapsAux, List.mem_append] at hi
    have hbr : lastEnd < s ∧ 1 ≤ s ∧ s ≤ e := hb (s, e) (List.mem_cons_self _ _)
    have hbrest : ∀ r ∈ rest, e < r.1 ∧ 1 ≤ r.1 ∧ r.1 ≤ r.2 := by
      intro r' hr'
      have h1 := (List.pairwise_cons.mp hpw).1 r' hr'
      have h2 := hb r' (List.mem_cons_of_mem _ hr')
      exact ⟨h1, h2.2.1, h2.2.2⟩
    rcases hi with hi | hi
    · have hmem : lastEnd ≤ i ∧ i < s - 1 := by
        split at hi
        · rw [List.mem_range'_1] at hi
          omega
        · simp at hi
      refine ⟨hmem.1, ?_⟩
      intro r' hr'
      rcases List.mem_cons.mp hr' with rfl | hr'
      · show ¬ (s - 1 ≤ i ∧ i ≤ e - 1)
        omega
      · have hrb := hbrest r' hr'
        omega
    · have hih := ih e (List.pairwise_cons.mp hpw).2 hbrest i hi
      refine ⟨by omega, ?_⟩
      intro r' hr'
      rcases List.mem_cons.mp hr' with rfl | hr'
      · show ¬ (s - 1 ≤ i ∧ i ≤ e - 1)
        have he := hih.1
        omega
      · exact hih.2 r' hr'

/-- C1 counterexample: with three source lines where lines 1 and 3 are
claimed by Units and the uncovered line 2 is blank, `processBaseCode`
emits no base Unit (the collected base code trims to empty), even
though line 2 (0-based index 1) is uncovered — so the union of all Unit
ranges plus the (absent) base Unit leaves a gap, refuting the claim as
stated. -/
theorem C1_counterexample :
    baseEmitted [("let a = 1").data, [], ("let b = 2").data] [(1, 1), (3, 3)]
      = false
    ∧ ¬ lineCovered [(1, 1), (3, 3)] 1
    ∧ (1 : Nat) <
        ([("let a = 1").data, ([] : List Char), ("let b = 2").data]).length := by
  refine ⟨by decide, by decide, by decide⟩

/-- C1 (amended): every source line is either inside some emitted
Unit's line range or collected into the base filler code; when the
sorted top-level ranges are pairwise disjoint, the collected base lines
overlap no Unit range.  However, the base Unit is emitted only when the
collected code contains a non-whitespace character, so a source whose
uncovered lines are all whitespace-only gets no base Unit (the
claim's "or none, if nothing is uncovered" must weaken to "or none, if
everything uncovered is whitespace"). -/
theorem C1_amended_coverage (lines : List (List Char))
    (ranges : List (Nat × Nat))
    (hwf : ∀ r ∈ ranges, 1 ≤ r.1 ∧ r.1 ≤ r.2) :
    (∀ i < lines.length,
        lineCovered ranges i ∨ i ∈ collectedBaseIdx ranges lines.length)
    ∧ ((sortRangesByStart ranges).Pairwise (fun a b => a.2 < b.1) →
        ∀ i ∈ collectedBaseIdx ranges lines.length, ¬ lineCovered ranges i)
    ∧ (baseEmitted lines ranges = false →
        ∀ l ∈ baseLinesOf lines ranges, l.all isWsJS = true) := by
  refine ⟨?_, ?_, ?_⟩
  · intro i hi
    by_cases hcov : lineCovered ranges i
    · exact Or.inl hcov
    · refine Or.inr ?_
      unfold collectedBaseIdx
      refine collectGapsAux_cover lines.length (sortRangesByStart ranges) 0 i
        (Nat.zero_le i) hi ?_
      intro r hr hcontra
      exact hcov ⟨r, mem_sortRangesByStart.mp hr, hcontra⟩
  · intro hpw i hi
    unfold collectedBaseIdx at hi
    have hh := collectGapsAux_disjoint lines.length (sortRangesByStart ranges) 0
      hpw (fun r hr => by
        have h2 := hwf r (mem_sortRangesByStart.mp hr)
        omega) i hi
    rintro ⟨r, hr, hcov⟩
    exact hh.2 r (mem_sortRangesByStart.mpr hr) hcov
  · intro hemit l hl
    rw [List.all_eq_true]
    intro c hc
    unfold baseEmitted at hemit
    rw [List.any_eq_false] at hemit
    have h2 := hemit l hl
    rw [List.any_eq_true] at h2
    push_neg at h2
    have h3 := h2 c hc
    simpa using h3

/-- Witness for C1 (amended) on the same three-line source as the
counterexample, whose ranges are well-formed and sorted-disjoint. -/
theorem C1_witness :
    (∀ r ∈ [((1 : Nat), (1 : Nat)), ((3 : Nat), (3 : Nat))], 1 ≤ r.1 ∧ r.1 ≤ r.2)
    ∧ ((∀ i < ([("let a = 1").data, ([] : List Char),
          ("let b = 2").data]).length,
        lineCovered [(1, 1), (3, 3)] i
        ∨ i ∈ collectedBaseIdx [(1, 1), (3, 3)]
            ([("let a = 1").data, ([] : List Char), ("let b = 2").data]).length)
      ∧ ((sortRangesByStart [(1, 1), (3, 3)]).Pairwise (fun a b => a.2 < b.1) →
          ∀ i ∈ collectedBaseIdx [(1, 1), (3, 3)]
              ([("let a = 1").data, ([] : List Char),
                ("let b = 2").data]).length,
            ¬ lineCovered [(1, 1), (3, 3)] i)
      ∧ (baseEmitted [("let a = 1").data, ([] : List Char), ("let b = 2").data]
            [(1, 1), (3, 3)] = false →
          ∀ l ∈ baseLinesOf [("let a = 1").data, ([] : List Char),
              ("let b = 2").data] [(1, 1), (3, 3)],
            l.all isWsJS = true)) :=
  ⟨by decide,
   C1_amended_coverage
     [("let a = 1").data, ([] : List Char), ("let b = 2").data]
     [(1, 1), (3, 3)] (by decide)⟩
